import Mathlib

/-!
Verification of the schema-extraction and grouping utilities of the
APISTIC repository (`utils/schema-utils.js` and its caller
`structureAndDatamodelMetrics.js`).

The JavaScript source is shallowly embedded: JavaScript values reachable
from the analyzed documents are modelled by the inductive `Json`
(with `none : Option Json` standing for `undefined` where a value may be
absent), property access by `Json.get?`, JavaScript truthiness by
`Json.truthy`, thrown exceptions by `Except Unit`, and the mutable
`grouped` array by explicit state passing.  `findSimilarSchema` returns
the position of the matched group instead of a reference to it; updating
the group at that position renders the source's in-place mutation.
-/

namespace Apistic

/-- A JSON value.  Objects are association lists in document key order
(JavaScript objects have no duplicate keys; `Object.entries` enumerates
fields in this order). -/
inductive Json where
  | null : Json
  | bool : Bool → Json
  | num : Int → Json
  | str : String → Json
  | arr : List Json → Json
  | obj : List (String × Json) → Json

/-- JavaScript truthiness of a defined value (`null`, `false`, `0` and
`""` are falsy; any object or array is truthy). -/
def Json.truthy : Json → Bool
  | .null => false
  | .bool b => b
  | .num n => n != 0
  | .str s => s != ""
  | .arr _ => true
  | .obj _ => true

/-- Property access `v[k]` for a named key: a field lookup on an object,
`undefined` (here `none`) on anything else. -/
def Json.get? : Json → String → Option Json
  | .obj fields, k => (fields.find? (fun f => f.1 == k)).map (fun f => f.2)
  | _, _ => none

/-- Truthiness of a possibly-`undefined` value (`undefined` is falsy). -/
def truthyOpt : Option Json → Bool
  | none => false
  | some j => j.truthy

/-- Optional chaining `v?.[k]`: `undefined` when the receiver is
`undefined` or `null`, otherwise property access. -/
def optGet (j : Option Json) (k : String) : Option Json :=
  j.bind (fun v => v.get? k)

/-- The chain `x?.content?.["application/json"]?.schema` used by
`groupBySchema` to reach the JSON body schema of a response object or
request body object. -/
def bodySchemaOf (j : Option Json) : Option Json :=
  optGet (optGet (optGet j "content") "application/json") "schema"

/-- `schema.items || schema` (line 54 / line 88 of the source): the
`items` value when it is present and truthy, the schema itself
otherwise.  Applied once, never recursively. -/
def unwrapItems (schema : Json) : Json :=
  match schema.get? "items" with
  | some v => if v.truthy then v else schema
  | none => schema

/-- One element of the array built by `extractSchemas`: a per-status-code
occurrence record. -/
structure Item where
  code : String
  path : String
  method : String
  res : Option Json
  req : Option Json
  parametersMethod : Option Json
  parametersPath : Option Json

/-- An endpoint provenance entry `{ method, path, code }`. -/
structure Endpoint where
  method : String
  path : String
  code : String
deriving DecidableEq, Repr

/-- The endpoint triple of an occurrence record. -/
def epOf (item : Item) : Endpoint :=
  { method := item.method, path := item.path, code := item.code }

/-- A schema group `{ schema, endpoints, message_type }` as built by
`addNewSchema` and mutated by `updateGroupedSchema`. -/
structure Group where
  schema : Json
  endpoints : List Endpoint
  message_type : List String

/-- `item[type]` for the two direction keys used by `groupBySchema`. -/
def itemField (item : Item) (ty : String) : Option Json :=
  if ty == "res" then item.res else if ty == "req" then item.req else none

/-- The schema-pair comparator (the external `json-schema-compare`
collaborator): it may throw, modelled by `Except Unit Bool`. -/
abbrev Cmp := Json → Json → Except Unit Bool

/-- A comparator that never throws. -/
def liftCmp (eq : Json → Json → Bool) : Cmp :=
  fun a b => Except.ok (eq a b)

/-- `findSimilarSchema` (lines 101-107): maps the comparator over all
existing groups (`Promise.all` computes every comparison and rejects when
any of them throws), then takes the first non-`false` result.  The
matched group is returned by position. -/
def findSimilarSchema (cmp : Cmp) (sourceArray : List Group) (destination : Json) :
    Except Unit (Option Nat) := do
  let comparisons ← sourceArray.enum.mapM (fun source => do
    let b ← cmp source.2.schema destination
    pure (if b then some source.1 else none))
  pure (comparisons.findSome? (fun result => result))

/-- `updateGroupedSchema` (lines 76-84): add the occurrence's endpoint
triple if no entry with the same path, method and code is present; add
the direction tag if not already present. -/
def updateGroupedSchema (group : Group) (item : Item) (ty : String) : Group :=
  let endpoint : Endpoint := { method := item.method, path := item.path, code := item.code }
  let group1 :=
    if group.endpoints.any (fun e =>
        e.path == endpoint.path && e.method == endpoint.method && e.code == endpoint.code) then
      group
    else
      { group with endpoints := group.endpoints ++ [endpoint] }
  if group1.message_type.contains ty then group1
  else { group1 with message_type := group1.message_type ++ [ty] }

/-- `addNewSchema` (lines 86-93): append a group whose representative is
`schema.items || schema`, with singleton endpoint and direction sets.
(The body-schema chain is re-read from the item, as in the source; the
`none` branch is unreachable under `groupBySchema`'s filter.) -/
def addNewSchema (grouped : List Group) (item : Item) (ty : String) : List Group :=
  match bodySchemaOf (itemField item ty) with
  | some s =>
      grouped ++ [{ schema := unwrapItems s,
                    endpoints := [{ method := item.method, path := item.path, code := item.code }],
                    message_type := [ty] }]
  | none => grouped

/-- The body of `processType`'s loop (lines 53-67): extract the fragment,
look for a similar group, merge or append; a thrown comparison error is
caught and logged, leaving the group list unchanged. -/
def processOne (cmp : Cmp) (grouped : List Group) (item : Item) (ty : String) : List Group :=
  match bodySchemaOf (itemField item ty) with
  | none => grouped
  | some s =>
    let currentSchema := unwrapItems s
    match findSimilarSchema cmp grouped currentSchema with
    | .error _ => grouped
    | .ok (some i) =>
        match grouped[i]? with
        | some g => grouped.set i (updateGroupedSchema g item ty)
        | none => grouped
    | .ok none => addNewSchema grouped item ty

/-- `processType` (lines 52-68): iterate the loop body over the items
whose body-schema chain for the given direction is truthy. -/
def processType (cmp : Cmp) (array : List Item) (ty : String) (grouped : List Group) :
    List Group :=
  (array.filter (fun i => truthyOpt (bodySchemaOf (itemField i ty)))).foldl
    (fun g item => processOne cmp g item ty) grouped

/-- `groupBySchema` (lines 48-74): the response pass over an empty group
list, then the request pass over its result. -/
def groupBySchema (cmp : Cmp) (array : List Item) : List Group :=
  processType cmp array "req" (processType cmp array "res" [])

/-- Sequential processing of an explicit list of (occurrence, direction)
pairs; `groupBySchema` is proved equal to one such run. -/
def processSeq (cmp : Cmp) (occs : List (Item × String)) (grouped : List Group) : List Group :=
  occs.foldl (fun g p => processOne cmp g p.1 p.2) grouped

/-- `Object.entries(v)`: throws on `undefined` and `null`, enumerates
fields of an object, index/value pairs of an array, index/character
pairs of a string, and nothing on other primitives. -/
def jsEntries : Option Json → Except Unit (List (String × Json))
  | none => .error ()
  | some .null => .error ()
  | some (.obj fields) => .ok fields
  | some (.arr xs) => .ok (xs.enum.map (fun p => (toString p.1, p.2)))
  | some (.str s) => .ok (s.toList.enum.map (fun p => (toString p.1, Json.str (String.singleton p.2))))
  | some (.bool _) => .ok []
  | some (.num _) => .ok []

/-- The inner map of `extractSchemas` (lines 24-32): one item per entry
of the operation's `responses` object, each carrying the same
`requestBody` reference and parameter lists. -/
def itemsOfMethod (derefApi : Json) (path : String) (method : String) (md : Json) :
    Except Unit (List Item) := do
  let respEntries ← jsEntries (md.get? "responses")
  pure (respEntries.map (fun ce =>
    { code := ce.1, path := path, method := method,
      res := some ce.2,
      req := md.get? "requestBody",
      parametersMethod := md.get? "parameters",
      parametersPath := optGet ((derefApi.get? "paths").bind (fun p => p.get? path)) "parameters" }))

/-- The harvesting loop of `extractSchemas` (lines 20-34):
`Object.entries(derefApi.paths)`, then per path `Object.entries(methods)`
filtered on a truthy `responses`, then one item per status code. -/
def harvest (derefApi : Json) : Except Unit (List Item) := do
  let pathEntries ← jsEntries (derefApi.get? "paths")
  let nested ← pathEntries.mapM (fun pe => do
    let methodEntries ← jsEntries (some pe.2)
    let kept := methodEntries.filter (fun me => truthyOpt (Json.get? me.2 "responses"))
    let inner ← kept.mapM (fun me => itemsOfMethod derefApi pe.1 me.1 me.2)
    pure inner.flatten)
  pure nested.flatten

/-- The error object thrown by the conversion collaborator
(`swagger2openapi`'s `convertObj`), as far as `convert2V3_2` inspects it:
its `options` property, whose `openapi` field (when the property exists)
holds the best-effort output, possibly `undefined`. -/
structure ConvError where
  options : Option Json

/-- The conversion collaborator: on success `convertObj` resolves with an
object whose `openapi` field is the converted document. -/
abbrev Converter := Json → Except ConvError Json

/-- `convert2V3_2` (lines 134-148): return the converted document; on a
collaborator error return `e.options.openapi` — which is itself a thrown
`TypeError` when the error carries no `options` object, and may be
`undefined` when `options` has no `openapi` field. -/
def convert2V3_2 (conv : Converter) (api : Json) : Except Unit (Option Json) :=
  match conv api with
  | .ok openapi => .ok (some openapi)
  | .error e =>
      match e.options with
      | some opts => .ok (opts.get? "openapi")
      | none => .error ()

/-- `extractSchemas` (lines 10-41): convert when the `openapi` marker is
falsy, harvest, and catch any thrown error by returning `null` (`none`).
The returned pair is `{ schemas, converted }`. -/
def extractSchemas (conv : Converter) (derefApi : Json) : Option (List Item × Json) :=
  let stepped : Except Unit (Option Json) :=
    if truthyOpt (derefApi.get? "openapi") then .ok (some derefApi)
    else convert2V3_2 conv derefApi
  match stepped with
  | .error _ => none
  | .ok none => none
  | .ok (some api) =>
      match harvest api with
      | .error _ => none
      | .ok items => some (items, api)

/-- The invariant claimed for every group: no two endpoint entries share
their (path, method, statusCode) triple, and no duplicate direction
tags. -/
def GroupOk (g : Group) : Prop :=
  g.endpoints.Nodup ∧ g.message_type.Nodup

/-! ### Concrete fixtures shared by witnesses and counterexamples -/

/-- A comparator on string-labelled schema fragments, used to
instantiate the comparator parameter on concrete inputs. -/
def strCmp : Json → Json → Bool := fun a b =>
  match a, b with
  | .str x, .str y => x == y
  | _, _ => false

/-- Wrap a schema fragment into a `content.application/json.schema`
carrier, the shape of a response object or request-body object. -/
def mkBody (s : Json) : Json :=
  .obj [("content", .obj [("application/json", .obj [("schema", s)])])]

/-- A bare occurrence record with the given body carriers. -/
def mkItem (path method code : String) (res req : Option Json) : Item :=
  { code := code, path := path, method := method, res := res, req := req,
    parametersMethod := none, parametersPath := none }

/-! ### Helper lemmas -/

theorem mapM_liftCmp_eq (eq : Json → Json → Bool) (d : Json) (l : List (Nat × Group)) :
    (l.mapM (fun source => do
        let b ← liftCmp eq source.2.schema d
        pure (if b then some source.1 else none)) : Except Unit (List (Option Nat)))
      = .ok (l.map (fun source => if eq source.2.schema d then some source.1 else none)) := by
  induction l with
  | nil => rfl
  | cons a t ih => rw [List.mapM_cons, ih]; rfl

theorem findSome?_enumFrom_eq_findIdx? (eq : Json → Json → Bool) (d : Json) :
    ∀ (l : List Group) (n : Nat),
      ((l.enumFrom n).map (fun s => if eq s.2.schema d then some s.1 else none)).findSome?
          (fun r => r)
        = l.findIdx? (fun g => eq g.schema d) n := by
  intro l
  induction l with
  | nil => intro n; rfl
  | cons a t ih =>
      intro n
      by_cases h : eq a.schema d
      · simp [List.enumFrom, List.findSome?, h, List.findIdx?_cons]
      · simp [List.enumFrom, List.findSome?, h, List.findIdx?_cons, ih]

/-- For a comparator that never throws, `findSimilarSchema` returns the
index of the first group in creation order whose representative the
comparator accepts. -/
theorem findSimilarSchema_liftCmp (eq : Json → Json → Bool) (l : List Group) (d : Json) :
    findSimilarSchema (liftCmp eq) l d = .ok (l.findIdx? (fun g => eq g.schema d)) := by
  unfold findSimilarSchema
  rw [show l.enum = l.enumFrom 0 from rfl]
  rw [mapM_liftCmp_eq]
  show Except.ok _ = _
  rw [findSome?_enumFrom_eq_findIdx?]

theorem contains_eq_decide_mem (l : List String) (a : String) :
    l.contains a = decide (a ∈ l) := by
  show l.elem a = _
  simp [List.elem_eq_mem]

theorem any_endpoint_match_eq_mem (l : List Endpoint) (m p c : String) :
    (l.any fun e => e.path == p && e.method == m && e.code == c)
      = decide ((⟨m, p, c⟩ : Endpoint) ∈ l) := by
  rw [Bool.eq_iff_iff]
  simp only [List.any_eq_true, decide_eq_true_eq]
  constructor
  · rintro ⟨e, he, hp⟩
    simp only [Bool.and_eq_true, beq_iff_eq] at hp
    obtain ⟨⟨h1, h2⟩, h3⟩ := hp
    cases e
    simp_all
  · intro h
    exact ⟨⟨m, p, c⟩, h, by simp⟩

/-- The endpoint set after a merge: unchanged when an entry with the
occurrence's (path, method, statusCode) is already present, otherwise
extended by exactly that triple. -/
theorem updateGroupedSchema_endpoints (g : Group) (item : Item) (ty : String) :
    (updateGroupedSchema g item ty).endpoints =
      if epOf item ∈ g.endpoints then g.endpoints else g.endpoints ++ [epOf item] := by
  simp only [updateGroupedSchema, any_endpoint_match_eq_mem, contains_eq_decide_mem]
  by_cases h : (⟨item.method, item.path, item.code⟩ : Endpoint) ∈ g.endpoints <;>
    by_cases h2 : ty ∈ g.message_type <;>
      simp [h, h2, epOf]

/-- The direction set after a merge: unchanged when the direction tag is
already present, otherwise extended by exactly that tag. -/
theorem updateGroupedSchema_message_type (g : Group) (item : Item) (ty : String) :
    (updateGroupedSchema g item ty).message_type =
      if ty ∈ g.message_type then g.message_type else g.message_type ++ [ty] := by
  simp only [updateGroupedSchema, any_endpoint_match_eq_mem, contains_eq_decide_mem]
  by_cases h : (⟨item.method, item.path, item.code⟩ : Endpoint) ∈ g.endpoints <;>
    by_cases h2 : ty ∈ g.message_type <;>
      simp [h, h2]

/-- For a comparator that never throws, one grouping step is: merge into
the first group (in creation order) whose representative the comparator
accepts, or append a new group when none is accepted. -/
theorem processOne_liftCmp (eq : Json → Json → Bool) (grouped : List Group)
    (item : Item) (ty : String) (s : Json)
    (hb : bodySchemaOf (itemField item ty) = some s) :
    processOne (liftCmp eq) grouped item ty =
      match grouped.findIdx? (fun g => eq g.schema (unwrapItems s)) with
      | some i =>
          match grouped[i]? with
          | some g => grouped.set i (updateGroupedSchema g item ty)
          | none => grouped
      | none => addNewSchema grouped item ty := by
  unfold processOne
  simp only [hb, findSimilarSchema_liftCmp]
  cases List.findIdx? (fun g => eq g.schema (unwrapItems s)) grouped <;> rfl

/-! ### Claim theorems -/

/-- C1: for every occurrence whose body schema for the processed
direction is present, the grouping step scans existing groups in
creation order and merges the occurrence into the first group whose
representative the comparator accepts — the merge adds the (path,
method, statusCode) triple and the direction tag only when not already
present — and a new group is created exactly when no existing group's
representative is accepted. -/
theorem processOne_first_match_c1 (eq : Json → Json → Bool) (grouped : List Group)
    (item : Item) (ty : String) (s : Json)
    (hb : bodySchemaOf (itemField item ty) = some s) :
    (∀ i g, grouped.findIdx? (fun gr => eq gr.schema (unwrapItems s)) = some i →
        grouped[i]? = some g →
        processOne (liftCmp eq) grouped item ty =
          grouped.set i (updateGroupedSchema g item ty))
    ∧ (grouped.findIdx? (fun gr => eq gr.schema (unwrapItems s)) = none →
        processOne (liftCmp eq) grouped item ty = addNewSchema grouped item ty)
    ∧ (∀ g, (updateGroupedSchema g item ty).endpoints =
        if epOf item ∈ g.endpoints then g.endpoints else g.endpoints ++ [epOf item])
    ∧ (∀ g, (updateGroupedSchema g item ty).message_type =
        if ty ∈ g.message_type then g.message_type else g.message_type ++ [ty]) := by
  refine ⟨?_, ?_, ?_, ?_⟩
  · intro i g hi hg
    rw [processOne_liftCmp eq grouped item ty s hb, hi]
    simp only [hg]
  · intro hn
    rw [processOne_liftCmp eq grouped item ty s hb, hn]
  · intro g; exact updateGroupedSchema_endpoints g item ty
  · intro g; exact updateGroupedSchema_message_type g item ty

/-- A fixture group whose representative is the fragment `"A"`. -/
def gA : Group :=
  { schema := Json.str "A", endpoints := [⟨"get", "/a", "200"⟩], message_type := ["res"] }

/-- A fixture occurrence at a different path whose response body schema
is the fragment `"A"`. -/
def itemA2 : Item := mkItem "/b" "get" "200" (some (mkBody (Json.str "A"))) none

/-- Witness for C1: the fixture occurrence merges into the single
matching group at position 0. -/
theorem processOne_first_match_c1_witness :
    processOne (liftCmp strCmp) [gA] itemA2 "res"
      = [gA].set 0 (updateGroupedSchema gA itemA2 "res") :=
  (processOne_first_match_c1 strCmp [gA] itemA2 "res" (Json.str "A") rfl).1 0 gA rfl rfl

theorem groupBySchema_eq_processSeq (cmp : Cmp) (array : List Item) :
    groupBySchema cmp array =
      processSeq cmp
        (((array.filter (fun i => truthyOpt (bodySchemaOf (itemField i "res")))).map
            (fun i => (i, "res")))
          ++ ((array.filter (fun i => truthyOpt (bodySchemaOf (itemField i "req")))).map
            (fun i => (i, "req")))) [] := by
  unfold groupBySchema processType processSeq
  rw [List.foldl_append, List.foldl_map, List.foldl_map]

/-- C2: a grouping run is exactly the sequential processing of all
response-direction occurrences (in harvest order) followed by all
request-direction occurrences (in harvest order); no request occurrence
is grouped before any response occurrence. -/
theorem groupBySchema_two_pass_order_c2 (cmp : Cmp) (array : List Item) :
    groupBySchema cmp array =
      processSeq cmp
        (((array.filter (fun i => truthyOpt (bodySchemaOf (itemField i "res")))).map
            (fun i => (i, "res")))
          ++ ((array.filter (fun i => truthyOpt (bodySchemaOf (itemField i "req")))).map
            (fun i => (i, "req")))) [] :=
  groupBySchema_eq_processSeq cmp array

/-- The schema fragment `{ "items": false }`, an array-style schema whose
`items` field is present but falsy. -/
def sItemsFalse : Json := Json.obj [("items", Json.bool false)]

/-- A fixture occurrence whose response body schema is
`{ "items": false }`. -/
def itemItemsFalse : Item := mkItem "/f" "get" "200" (some (mkBody sItemsFalse)) none

/-- Counterexample for C3: the schema `{ "items": false }` has an `items`
field, yet the fragment used for grouping (and stored as the new group's
representative) is the whole schema, not the `items` sub-schema: the
source tests only JavaScript truthiness of `items`, never the top-level
`type`, so a present-but-falsy `items` is not unwrapped. -/
theorem unwrapItems_items_present_cex_c3 :
    sItemsFalse.get? "items" = some (Json.bool false)
    ∧ unwrapItems sItemsFalse = sItemsFalse
    ∧ (groupBySchema (liftCmp (fun _ _ => false)) [itemItemsFalse]).map Group.schema
        = [sItemsFalse]
    ∧ sItemsFalse ≠ Json.bool false :=
  ⟨rfl, rfl, rfl, fun h => Json.noConfusion h⟩

/-- C3 (amended): the fragment used for grouping and comparison is the
schema's `items` value exactly when that value is present and truthy
(`schema.items || schema`); otherwise the schema itself is used; the
top-level `type` is never consulted; the unwrap is applied once, never
recursively (the selected `items` value is used as-is even when it is
itself array-shaped). -/
theorem unwrapItems_shallow_c3 (eq : Json → Json → Bool) (grouped : List Group)
    (item : Item) (ty : String) (s v : Json)
    (hb : bodySchemaOf (itemField item ty) = some s) :
    (s.get? "items" = some v → v.truthy = true → unwrapItems s = v)
    ∧ (s.get? "items" = some v → v.truthy = false → unwrapItems s = s)
    ∧ (s.get? "items" = none → unwrapItems s = s)
    ∧ (grouped.findIdx? (fun gr => eq gr.schema (unwrapItems s)) = none →
        processOne (liftCmp eq) grouped item ty =
          grouped ++ [{ schema := unwrapItems s,
                        endpoints := [epOf item], message_type := [ty] }]) := by
  refine ⟨?_, ?_, ?_, ?_⟩
  · intro hv ht; unfold unwrapItems; rw [hv]; simp [ht]
  · intro hv ht; unfold unwrapItems; rw [hv]; simp [ht]
  · intro hv; unfold unwrapItems; rw [hv]
  · intro hn
    rw [processOne_liftCmp eq grouped item ty s hb, hn]
    unfold addNewSchema
    rw [hb]
    rfl

/-- A doubly array-wrapped schema fragment. -/
def sNested : Json := Json.obj [("items", Json.obj [("items", Json.str "T")])]

/-- A fixture occurrence whose response body schema is the doubly
wrapped fragment. -/
def itemNested : Item := mkItem "/n" "get" "200" (some (mkBody sNested)) none

/-- Witness for C3 (amended): one level of array wrapping is removed and
the inner array wrapping is kept. -/
theorem unwrapItems_shallow_c3_witness :
    unwrapItems sNested = Json.obj [("items", Json.str "T")] :=
  (unwrapItems_shallow_c3 strCmp [] itemNested "res" sNested
      (Json.obj [("items", Json.str "T")]) rfl).1 rfl rfl

/-- Every grouping step (for any comparator behaviour, throwing included)
either leaves the group list unchanged, or replaces exactly one group by
its merged version, or appends exactly one new group made from the
occurrence's fragment. -/
theorem processOne_cases (cmp : Cmp) (grouped : List Group) (item : Item) (ty : String) :
    processOne cmp grouped item ty = grouped
    ∨ (∃ i g, grouped[i]? = some g ∧
        processOne cmp grouped item ty = grouped.set i (updateGroupedSchema g item ty))
    ∨ (∃ s, bodySchemaOf (itemField item ty) = some s ∧
        processOne cmp grouped item ty =
          grouped ++ [{ schema := unwrapItems s, endpoints := [epOf item],
                        message_type := [ty] }]) := by
  cases hb : bodySchemaOf (itemField item ty) with
  | none => exact Or.inl (by simp only [processOne, hb])
  | some s =>
    cases hf : findSimilarSchema cmp grouped (unwrapItems s) with
    | error e => exact Or.inl (by simp only [processOne, hb, hf])
    | ok o =>
      cases o with
      | none =>
        exact Or.inr (Or.inr ⟨s, rfl,
          by simp only [processOne, hb, hf, addNewSchema, epOf]⟩)
      | some i =>
        cases hgi : grouped[i]? with
        | none => exact Or.inl (by simp only [processOne, hb, hf, hgi])
        | some g0 =>
          exact Or.inr (Or.inl ⟨i, g0, hgi,
            by simp only [processOne, hb, hf, hgi]⟩)

theorem GroupOk_update (g : Group) (item : Item) (ty : String) (h : GroupOk g) :
    GroupOk (updateGroupedSchema g item ty) := by
  constructor
  · rw [updateGroupedSchema_endpoints]
    split
    · exact h.1
    · next hne => simp [List.nodup_append, h.1, hne]
  · rw [updateGroupedSchema_message_type]
    split
    · exact h.2
    · next hne => simp [List.nodup_append, h.2, hne]

theorem processOne_preserves_GroupOk (cmp : Cmp) (grouped : List Group) (item : Item)
    (ty : String) (h : ∀ g ∈ grouped, GroupOk g) :
    ∀ g ∈ processOne cmp grouped item ty, GroupOk g := by
  intro g hg
  rcases processOne_cases cmp grouped item ty with heq | ⟨i, g0, hgi, heq⟩ | ⟨s, hb, heq⟩
  · rw [heq] at hg; exact h g hg
  · rw [heq] at hg
    rcases List.mem_or_eq_of_mem_set hg with h1 | h2
    · exact h g h1
    · subst h2
      exact GroupOk_update g0 item ty (h g0 (List.getElem?_mem hgi))
  · rw [heq] at hg
    rcases List.mem_append.mp hg with h1 | h2
    · exact h g h1
    · rw [List.mem_singleton.mp h2]
      exact ⟨by simp, by simp⟩

theorem processSeq_preserves_GroupOk (cmp : Cmp) (occs : List (Item × String)) :
    ∀ grouped, (∀ g ∈ grouped, GroupOk g) →
      ∀ g ∈ processSeq cmp occs grouped, GroupOk g := by
  induction occs with
  | nil => intro grouped h g hg; exact h g hg
  | cons o rest ih =>
      intro grouped h g hg
      exact ih (processOne cmp grouped o.1 o.2)
        (processOne_preserves_GroupOk cmp grouped o.1 o.2 h) g hg

/-- C4: after every grouping step, every group's endpoint set is free of
duplicate (path, method, statusCode) triples and its direction set is
free of duplicate tags — for every reachable group list and for every
full `groupBySchema` run. -/
theorem groups_nodup_invariant_c4 (cmp : Cmp) :
    (∀ occs grouped, (∀ g ∈ grouped, GroupOk g) →
        ∀ g ∈ processSeq cmp occs grouped, GroupOk g)
    ∧ (∀ array, ∀ g ∈ groupBySchema cmp array, GroupOk g) := by
  constructor
  · intro occs; exact processSeq_preserves_GroupOk cmp occs
  · intro array g hg
    rw [groupBySchema_eq_processSeq] at hg
    exact processSeq_preserves_GroupOk cmp _ [] (by simp) g hg

/-- The single group produced by grouping the fixture occurrence. -/
def gB : Group :=
  { schema := Json.str "A", endpoints := [⟨"get", "/b", "200"⟩], message_type := ["res"] }

/-- Witness for C4: the group reached by a concrete run satisfies the
invariant. -/
theorem groups_nodup_invariant_c4_witness : GroupOk gB :=
  (groups_nodup_invariant_c4 (liftCmp strCmp)).2 [itemA2] gB
    (show gB ∈ [gB] from List.mem_singleton_self gB)

/-- A merge never touches the representative schema. -/
theorem updateGroupedSchema_schema (g : Group) (item : Item) (ty : String) :
    (updateGroupedSchema g item ty).schema = g.schema := by
  simp only [updateGroupedSchema]
  split <;> split <;> rfl

theorem set_self_of_getElem? {α : Type} (l : List α) (i : Nat) (a : α)
    (h : l[i]? = some a) : l.set i a = l := by
  induction l generalizing i with
  | nil => simp at h
  | cons x t ih =>
      cases i with
      | zero => simp_all
      | succ n =>
          simp only [List.getElem?_cons_succ] at h
          simp [ih n h]

theorem processOne_map_schema (cmp : Cmp) (grouped : List Group) (item : Item)
    (ty : String) :
    ∃ t, (processOne cmp grouped item ty).map Group.schema
      = grouped.map Group.schema ++ t := by
  rcases processOne_cases cmp grouped item ty with heq | ⟨i, g, hgi, heq⟩ | ⟨s, hb, heq⟩
  · exact ⟨[], by simp [heq]⟩
  · refine ⟨[], ?_⟩
    rw [heq, List.map_set, updateGroupedSchema_schema, List.append_nil]
    exact set_self_of_getElem? _ i _ (by simp [hgi])
  · exact ⟨[unwrapItems s], by rw [heq]; simp⟩

theorem processSeq_map_schema (cmp : Cmp) (occs : List (Item × String)) :
    ∀ grouped, ∃ t, (processSeq cmp occs grouped).map Group.schema
      = grouped.map Group.schema ++ t := by
  induction occs with
  | nil => intro grouped; exact ⟨[], by simp [processSeq]⟩
  | cons o rest ih =>
      intro grouped
      obtain ⟨t0, h0⟩ := processOne_map_schema cmp grouped o.1 o.2
      obtain ⟨t1, h1⟩ := ih (processOne cmp grouped o.1 o.2)
      refine ⟨t0 ++ t1, ?_⟩
      show (processSeq cmp rest (processOne cmp grouped o.1 o.2)).map Group.schema = _
      rw [h1, h0, List.append_assoc]

/-- C5: the representative schema of a group is fixed at creation (it is
the fragment of the creating occurrence) and never replaced: a merge
changes only the merged group's endpoint and direction sets, every other
group is left untouched, and across any run the schema list of the
existing groups is preserved as an initial segment. -/
theorem representative_permanent_c5 (cmp : Cmp) :
    (∀ g item ty, (updateGroupedSchema g item ty).schema = g.schema)
    ∧ (∀ grouped item ty, processOne cmp grouped item ty = grouped
        ∨ (∃ i g, grouped[i]? = some g ∧
            processOne cmp grouped item ty = grouped.set i (updateGroupedSchema g item ty))
        ∨ (∃ s, bodySchemaOf (itemField item ty) = some s ∧
            processOne cmp grouped item ty =
              grouped ++ [{ schema := unwrapItems s, endpoints := [epOf item],
                            message_type := [ty] }]))
    ∧ (∀ occs grouped, ∃ t, (processSeq cmp occs grouped).map Group.schema
        = grouped.map Group.schema ++ t) :=
  ⟨fun g item ty => updateGroupedSchema_schema g item ty,
   fun grouped item ty => processOne_cases cmp grouped item ty,
   fun occs grouped => processSeq_map_schema cmp occs grouped⟩

/-- All endpoint entries across a group list, in group order. -/
def allEndpoints (l : List Group) : List Endpoint :=
  l.flatMap Group.endpoints

theorem length_allEndpoints (l : List Group) :
    (allEndpoints l).length = (l.map (fun g => g.endpoints.length)).sum := by
  induction l with
  | nil => rfl
  | cons x t ih =>
      show (x.endpoints ++ allEndpoints t).length = _
      rw [List.length_append, ih]
      rfl

theorem count_allEndpoints (e : Endpoint) (l : List Group) :
    (allEndpoints l).count e = (l.map (fun g => g.endpoints.count e)).sum := by
  induction l with
  | nil => rfl
  | cons x t ih =>
      show (x.endpoints ++ allEndpoints t).count e = _
      rw [List.count_append, ih]
      rfl

theorem countP_le_sum_count (e : Endpoint) (l : List Group) :
    l.countP (fun g => decide (e ∈ g.endpoints))
      ≤ (l.map (fun g => g.endpoints.count e)).sum := by
  induction l with
  | nil => simp
  | cons x t ih =>
      rw [List.countP_cons]
      simp only [List.map_cons, List.sum_cons]
      by_cases hx : e ∈ x.endpoints
      · have h1 : 0 < x.endpoints.count e := List.count_pos_iff.mpr hx
        simp [hx]
        omega
      · simp [hx]
        omega

theorem mem_allEndpoints_of_getElem? {l : List Group} {i : Nat} {g : Group}
    (hgi : l[i]? = some g) {e : Endpoint} (he : e ∈ g.endpoints) :
    e ∈ allEndpoints l :=
  List.mem_flatMap.mpr ⟨g, List.getElem?_mem hgi, he⟩

theorem allEndpoints_set_perm (e : Endpoint) :
    ∀ (l : List Group) (i : Nat) (g g' : Group), l[i]? = some g →
      g'.endpoints = g.endpoints ++ [e] →
      (allEndpoints (l.set i g')).Perm (allEndpoints l ++ [e]) := by
  intro l
  induction l with
  | nil => intro i g g' hi _; simp at hi
  | cons x t ih =>
      intro i g g' hi he
      cases i with
      | zero =>
          simp only [List.getElem?_cons_zero, Option.some.injEq] at hi
          show (allEndpoints (g' :: t)).Perm (allEndpoints (x :: t) ++ [e])
          simp only [allEndpoints, List.flatMap_cons, he, hi, List.append_assoc]
          exact List.Perm.append_left g.endpoints List.perm_append_comm
      | succ n =>
          simp only [List.getElem?_cons_succ] at hi
          show (allEndpoints (x :: t.set n g')).Perm _
          simp only [allEndpoints, List.flatMap_cons, List.append_assoc]
          exact List.Perm.append_left x.endpoints (ih n g g' hi he)

/-- A grouping step on an occurrence whose triple is not yet recorded
anywhere adds that triple exactly once (to the merged group or in the
new group), up to position. -/
theorem processOne_allEndpoints_perm (eq : Json → Json → Bool) (grouped : List Group)
    (item : Item) (ty : String) (s : Json)
    (hb : bodySchemaOf (itemField item ty) = some s)
    (hnotin : epOf item ∉ allEndpoints grouped) :
    (allEndpoints (processOne (liftCmp eq) grouped item ty)).Perm
      (allEndpoints grouped ++ [epOf item]) := by
  cases hidx : grouped.findIdx? (fun g => eq g.schema (unwrapItems s)) with
  | none =>
      have heq : processOne (liftCmp eq) grouped item ty = addNewSchema grouped item ty := by
        rw [processOne_liftCmp eq grouped item ty s hb, hidx]
      rw [heq]
      unfold addNewSchema
      rw [hb]
      simp only [allEndpoints, List.flatMap_append, List.flatMap_cons,
        List.flatMap_nil, List.append_nil]
      exact List.Perm.refl _
  | some i =>
      obtain ⟨hlen, -, -⟩ := List.findIdx?_eq_some_iff_getElem.mp hidx
      have hgi : grouped[i]? = some grouped[i] := List.getElem?_eq_some_iff.mpr ⟨hlen, rfl⟩
      have heq : processOne (liftCmp eq) grouped item ty
          = grouped.set i (updateGroupedSchema grouped[i] item ty) := by
        rw [processOne_liftCmp eq grouped item ty s hb, hidx]
        simp only [hgi]
      rw [heq]
      have hne : epOf item ∉ grouped[i].endpoints :=
        fun hmem => hnotin (mem_allEndpoints_of_getElem? hgi hmem)
      have hup : (updateGroupedSchema grouped[i] item ty).endpoints
          = grouped[i].endpoints ++ [epOf item] := by
        rw [updateGroupedSchema_endpoints]
        simp [hne]
      exact allEndpoints_set_perm (epOf item) grouped i grouped[i]
        (updateGroupedSchema grouped[i] item ty) hgi hup

/-- Along a run whose occurrences all carry a body schema and whose
triples are pairwise distinct and absent from the starting state, the
endpoint entries of the final state are exactly the starting entries
plus one entry per occurrence. -/
theorem processSeq_allEndpoints_perm (eq : Json → Json → Bool) :
    ∀ (occs : List (Item × String)) (grouped : List Group),
      (∀ o ∈ occs, ∃ s, bodySchemaOf (itemField o.1 o.2) = some s) →
      ((occs.map (fun o => epOf o.1)) ++ allEndpoints grouped).Nodup →
      (allEndpoints (processSeq (liftCmp eq) occs grouped)).Perm
        (allEndpoints grouped ++ occs.map (fun o => epOf o.1)) := by
  intro occs
  induction occs with
  | nil => intro grouped _ _; simp [processSeq]
  | cons o rest ih =>
      intro grouped hb hnd
      obtain ⟨s, hs⟩ := hb o (List.mem_cons_self o rest)
      have hnotin : epOf o.1 ∉ allEndpoints grouped := by
        intro hmem
        exact List.disjoint_of_nodup_append hnd (List.mem_cons_self _ _) hmem
      have hstep := processOne_allEndpoints_perm eq grouped o.1 o.2 s hs hnotin
      have hpermL :
          ((o :: rest).map (fun o => epOf o.1) ++ allEndpoints grouped).Perm
            ((rest.map (fun o => epOf o.1))
              ++ allEndpoints (processOne (liftCmp eq) grouped o.1 o.2)) := by
        have h1 : ((o :: rest).map (fun o => epOf o.1) ++ allEndpoints grouped).Perm
            ((rest.map (fun o => epOf o.1) ++ allEndpoints grouped) ++ [epOf o.1]) := by
          simp only [List.map_cons, List.cons_append]
          exact @List.perm_append_comm _ [epOf o.1]
            (List.map (fun o => epOf o.1) rest ++ allEndpoints grouped)
        have h2 : ((rest.map (fun o => epOf o.1) ++ allEndpoints grouped) ++ [epOf o.1]).Perm
            ((rest.map (fun o => epOf o.1))
              ++ allEndpoints (processOne (liftCmp eq) grouped o.1 o.2)) := by
          rw [List.append_assoc]
          exact (hstep.symm).append_left _
        exact h1.trans h2
      have hnd' := hpermL.nodup hnd
      have hrest := ih (processOne (liftCmp eq) grouped o.1 o.2)
        (fun o' ho' => hb o' (List.mem_cons_of_mem _ ho')) hnd'
      show (allEndpoints (processSeq (liftCmp eq) rest
          (processOne (liftCmp eq) grouped o.1 o.2))).Perm _
      refine hrest.trans ?_
      refine (hstep.append_right _).trans ?_
      simp [List.append_assoc]

/-- Groups are never removed and their endpoint and direction sets only
grow: each position of the state survives one step with supersets. -/
theorem processOne_mono (cmp : Cmp) (grouped : List Group) (item : Item) (ty : String)
    (j : Nat) (g : Group) (hj : grouped[j]? = some g) :
    ∃ g', (processOne cmp grouped item ty)[j]? = some g' ∧
      (∀ e ∈ g.endpoints, e ∈ g'.endpoints) ∧
      (∀ t ∈ g.message_type, t ∈ g'.message_type) := by
  rcases processOne_cases cmp grouped item ty with heq | ⟨i, g0, hgi, heq⟩ | ⟨s, hb, heq⟩
  · exact ⟨g, by rw [heq]; exact hj, fun e he => he, fun t ht => ht⟩
  · rw [heq]
    by_cases hij : j = i
    · subst hij
      have hg0 : g0 = g := by rw [hgi] at hj; exact (Option.some.injEq _ _).mp hj
      subst hg0
      have hlen : j < grouped.length := (List.getElem?_eq_some_iff.mp hj).1
      refine ⟨updateGroupedSchema g0 item ty, ?_, ?_, ?_⟩
      · rw [List.getElem?_set_self (by simpa using hlen)]
      · intro e he
        rw [updateGroupedSchema_endpoints]
        split <;> simp [he]
      · intro t ht
        rw [updateGroupedSchema_message_type]
        split <;> simp [ht]
    · exact ⟨g, by rw [List.getElem?_set_ne (fun h => hij h.symm)]; exact hj,
        fun e he => he, fun t ht => ht⟩
  · rw [heq]
    have hlen : j < grouped.length := (List.getElem?_eq_some_iff.mp hj).1
    exact ⟨g, by rw [List.getElem?_append_left hlen]; exact hj,
      fun e he => he, fun t ht => ht⟩

theorem processSeq_mono (cmp : Cmp) (occs : List (Item × String)) :
    ∀ (grouped : List Group) (j : Nat) (g : Group), grouped[j]? = some g →
      ∃ g', (processSeq cmp occs grouped)[j]? = some g' ∧
        (∀ e ∈ g.endpoints, e ∈ g'.endpoints) ∧
        (∀ t ∈ g.message_type, t ∈ g'.message_type) := by
  induction occs with
  | nil => intro grouped j g hj; exact ⟨g, hj, fun e he => he, fun t ht => ht⟩
  | cons o rest ih =>
      intro grouped j g hj
      obtain ⟨g1, hj1, he1, ht1⟩ := processOne_mono cmp grouped o.1 o.2 j g hj
      obtain ⟨g2, hj2, he2, ht2⟩ := ih (processOne cmp grouped o.1 o.2) j g1 hj1
      exact ⟨g2, hj2, fun e he => he2 e (he1 e he), fun t ht => ht2 t (ht1 t ht)⟩

/-- After processing an occurrence with a present body schema (and a
comparator that does not throw), some group holds its endpoint triple
and its direction tag. -/
theorem processOne_covers (eq : Json → Json → Bool) (grouped : List Group)
    (item : Item) (ty : String) (s : Json)
    (hb : bodySchemaOf (itemField item ty) = some s) :
    ∃ (j : Nat) (g : Group), (processOne (liftCmp eq) grouped item ty)[j]? = some g ∧
      epOf item ∈ g.endpoints ∧ ty ∈ g.message_type := by
  cases hidx : grouped.findIdx? (fun g => eq g.schema (unwrapItems s)) with
  | none =>
      have heq : processOne (liftCmp eq) grouped item ty = addNewSchema grouped item ty := by
        rw [processOne_liftCmp eq grouped item ty s hb, hidx]
      refine ⟨grouped.length,
        { schema := unwrapItems s, endpoints := [epOf item], message_type := [ty] },
        ?_, by simp, by simp⟩
      rw [heq]
      unfold addNewSchema
      rw [hb]
      have : grouped.length <
          (grouped
            ++ [({ schema := unwrapItems s, endpoints := [epOf item],
                   message_type := [ty] } : Group)]).length := by
        simp
      rw [List.getElem?_eq_some_iff]
      refine ⟨by simpa only [epOf] using this, by simp [epOf]⟩
  | some i =>
      obtain ⟨hlen, -, -⟩ := List.findIdx?_eq_some_iff_getElem.mp hidx
      have hgi : grouped[i]? = some grouped[i] := List.getElem?_eq_some_iff.mpr ⟨hlen, rfl⟩
      have heq : processOne (liftCmp eq) grouped item ty
          = grouped.set i (updateGroupedSchema grouped[i] item ty) := by
        rw [processOne_liftCmp eq grouped item ty s hb, hidx]
        simp only [hgi]
      refine ⟨i, updateGroupedSchema grouped[i] item ty, ?_, ?_, ?_⟩
      · rw [heq, List.getElem?_set_self (by simpa using hlen)]
      · rw [updateGroupedSchema_endpoints]
        split
        · next h => exact h
        · exact List.mem_append_right _ (List.mem_singleton_self _)
      · rw [updateGroupedSchema_message_type]
        split
        · next h => exact h
        · exact List.mem_append_right _ (List.mem_singleton_self _)

/-- Every occurrence of a run that carries a body schema ends up covered:
some group of the final state holds its triple and its direction tag. -/
theorem processSeq_covers (eq : Json → Json → Bool) :
    ∀ (occs : List (Item × String)) (grouped : List Group),
      (∀ o ∈ occs, ∃ s, bodySchemaOf (itemField o.1 o.2) = some s) →
      ∀ o ∈ occs, ∃ g, g ∈ processSeq (liftCmp eq) occs grouped ∧
        epOf o.1 ∈ g.endpoints ∧ o.2 ∈ g.message_type := by
  intro occs
  induction occs with
  | nil => intro grouped _ o ho; cases ho
  | cons o0 rest ih =>
      intro grouped hb o ho
      rcases List.mem_cons.mp ho with rfl | hmem
      · obtain ⟨s, hs⟩ := hb o (List.mem_cons_self o rest)
        obtain ⟨j, g, hj, hep, hty⟩ := processOne_covers eq grouped o.1 o.2 s hs
        obtain ⟨g', hj', he', ht'⟩ :=
          processSeq_mono (liftCmp eq) rest (processOne (liftCmp eq) grouped o.1 o.2) j g hj
        exact ⟨g', List.getElem?_mem hj', he' _ hep, ht' _ hty⟩
      · exact ih (processOne (liftCmp eq) grouped o0.1 o0.2)
          (fun o' ho' => hb o' (List.mem_cons_of_mem _ ho')) o hmem

/-- The fragment `"S"` and two occurrences sharing it: the first carries
it as both response and request body, the second only as response
body. -/
def sS : Json := Json.str "S"

def i61 : Item := mkItem "/a" "get" "200" (some (mkBody sS)) (some (mkBody sS))

def i62 : Item := mkItem "/b" "get" "200" (some (mkBody sS)) none

/-- Counterexample for C6: endpoint sets are pooled across directions and
deduplicated by triple only, so summing `endpoints.size()` over the
groups carrying the request tag gives 2 although only one occurrence has
a non-empty request schema (the request merge finds its triple already
recorded by the response pass and adds nothing). -/
theorem coverage_partition_cex_c6 :
    (((groupBySchema (liftCmp strCmp) [i61, i62]).filter
        (fun g => g.message_type.contains "req")).map (fun g => g.endpoints.length)).sum = 2
    ∧ ([i61, i62].filter (fun i => truthyOpt (bodySchemaOf (itemField i "req")))).length = 1 :=
  ⟨rfl, rfl⟩

/-- C6 (amended): when the processed occurrences all carry a body schema
and their (path, method, statusCode) triples are pairwise distinct (in
particular, within a single direction), every occurrence is accounted
for in exactly one group's endpoint set with its direction tag on that
group, and the endpoint-set sizes over all groups sum to the number of
occurrences.  (Without the distinctness restriction the per-direction
sum identity of the original claim fails, as the counterexample
shows: endpoint sets are shared between directions.) -/
theorem coverage_partition_c6 (eq : Json → Json → Bool) (occs : List (Item × String))
    (hb : ∀ o ∈ occs, ∃ s, bodySchemaOf (itemField o.1 o.2) = some s)
    (hnd : (occs.map (fun o => epOf o.1)).Nodup) :
    (((processSeq (liftCmp eq) occs []).map (fun g => g.endpoints.length)).sum = occs.length)
    ∧ (∀ o ∈ occs, (processSeq (liftCmp eq) occs []).countP
        (fun g => decide (epOf o.1 ∈ g.endpoints)) = 1)
    ∧ (∀ o ∈ occs, ∃ g, g ∈ processSeq (liftCmp eq) occs [] ∧
        epOf o.1 ∈ g.endpoints ∧ o.2 ∈ g.message_type) := by
  have hperm := processSeq_allEndpoints_perm eq occs []
    hb (by simpa [allEndpoints] using hnd)
  refine ⟨?_, ?_, ?_⟩
  · have hlen := hperm.length_eq
    rw [length_allEndpoints] at hlen
    simpa [allEndpoints] using hlen
  · intro o ho
    have hcount : (allEndpoints (processSeq (liftCmp eq) occs [])).count (epOf o.1) = 1 := by
      rw [hperm.count_eq]
      exact List.count_eq_one_of_mem hnd (List.mem_map_of_mem _ ho)
    have hle := countP_le_sum_count (epOf o.1) (processSeq (liftCmp eq) occs [])
    rw [← count_allEndpoints, hcount] at hle
    have hpos : 0 < (processSeq (liftCmp eq) occs []).countP
        (fun g => decide (epOf o.1 ∈ g.endpoints)) := by
      rw [List.countP_pos_iff]
      have hmem : epOf o.1 ∈ allEndpoints (processSeq (liftCmp eq) occs []) := by
        rw [hperm.mem_iff]
        exact List.mem_map_of_mem _ ho
      obtain ⟨g, hg, he⟩ := List.mem_flatMap.mp hmem
      exact ⟨g, hg, by simpa using he⟩
    omega
  · exact processSeq_covers eq occs [] hb

/-- Witness for C6 (amended): two distinct-triple response occurrences of
the same fragment yield one group with two endpoints. -/
theorem coverage_partition_c6_witness :
    ((processSeq (liftCmp strCmp) [(i61, "res"), (i62, "res")] []).map
        (fun g => g.endpoints.length)).sum = 2 := by
  have h := coverage_partition_c6 strCmp [(i61, "res"), (i62, "res")]
    (by
      intro o ho
      rcases List.mem_cons.mp ho with rfl | ho2
      · exact ⟨sS, rfl⟩
      · rcases List.mem_cons.mp ho2 with rfl | ho3
        · exact ⟨sS, rfl⟩
        · cases ho3)
    (by decide)
  exact h.1

theorem except_bind_error {ε α β : Type} (e : ε) (f : α → Except ε β) :
    (Except.error e >>= f) = Except.error e := rfl

theorem except_bind_ok {ε α β : Type} (a : α) (f : α → Except ε β) :
    (Except.ok a >>= f) = f a := rfl

theorem except_map_error {ε α β : Type} (e : ε) (f : α → β) :
    (f <$> (Except.error e : Except ε α)) = Except.error e := rfl

theorem except_map_ok {ε α β : Type} (a : α) (f : α → β) :
    (f <$> (Except.ok a : Except ε α)) = Except.ok (f a) := rfl

/-- Two fixture groups and an occurrence whose fragment `"D"` makes the
comparator throw against the first group but match the second. -/
def g71 : Group :=
  { schema := Json.str "S1", endpoints := [⟨"get", "/1", "200"⟩], message_type := ["res"] }

def g72 : Group :=
  { schema := Json.str "S2", endpoints := [⟨"get", "/2", "200"⟩], message_type := ["res"] }

def cmpD : Cmp := fun a b =>
  match a, b with
  | .str "S1", .str "D" => .error ()
  | .str "S2", .str "D" => .ok true
  | _, _ => .ok false

def itemD : Item := mkItem "/d" "get" "200" (some (mkBody (Json.str "D"))) none

/-- Counterexample for C7: although a later group matches the fragment,
a single throwing comparison rejects the whole `Promise.all`, the
occurrence-level catch fires, and the occurrence is not grouped anywhere
— the pair is not treated as merely non-equivalent. -/
theorem comparison_error_cex_c7 :
    cmpD g72.schema (unwrapItems (Json.str "D")) = .ok true
    ∧ processOne cmpD [g71, g72] itemD "res" = [g71, g72]
    ∧ ∀ g ∈ processOne cmpD [g71, g72] itemD "res", epOf itemD ∉ g.endpoints :=
  ⟨rfl, rfl, by decide⟩

/-- C7 (amended): a thrown schema-pair comparison is caught and logged
per occurrence: the occurrence is skipped entirely — it is not grouped
into any group, not even a matching one — while the group list is left
unchanged and the remaining occurrences of the run are still processed,
so one malformed schema does not abort the whole grouping run. -/
theorem comparison_error_skips_occurrence_c7 (cmp : Cmp) (grouped : List Group)
    (occs2 : List (Item × String)) (item : Item) (ty : String) (s : Json)
    (hb : bodySchemaOf (itemField item ty) = some s)
    (he : findSimilarSchema cmp grouped (unwrapItems s) = .error ()) :
    processOne cmp grouped item ty = grouped
    ∧ processSeq cmp ((item, ty) :: occs2) grouped = processSeq cmp occs2 grouped := by
  have h1 : processOne cmp grouped item ty = grouped := by
    unfold processOne
    simp only [hb, he]
  refine ⟨h1, ?_⟩
  show processSeq cmp occs2 (processOne cmp grouped item ty) = _
  rw [h1]

/-- A comparator that throws whenever the destination fragment is
`"BAD"`. -/
def cmpBad : Cmp := fun _ b =>
  match b with
  | .str "BAD" => .error ()
  | _ => Except.ok false

def itemBad : Item := mkItem "/x" "post" "500" (some (mkBody (Json.str "BAD"))) none

/-- Witness for C7 (amended): the malformed occurrence disappears from a
run laid over an existing group, and the rest proceeds. -/
theorem comparison_error_skips_occurrence_c7_witness :
    processSeq cmpBad [(itemBad, "res"), (itemA2, "res")] [gA]
      = processSeq cmpBad [(itemA2, "res")] [gA] :=
  (comparison_error_skips_occurrence_c7 cmpBad [gA] [(itemA2, "res")] itemBad "res"
      (Json.str "BAD") rfl rfl).2

/-- A legacy document without the `openapi` marker. -/
def doc8 : Json := Json.obj [("swagger", Json.str "2.0"), ("paths", Json.obj [])]

/-- The partial output carried by a failing conversion. -/
def p8 : Json := Json.obj [("openapi", Json.str "3.0.0"), ("paths", Json.obj [])]

def convP : Converter := fun _ => .error ⟨some (Json.obj [("openapi", p8)])⟩

def convBadNoOpt : Converter := fun _ => .error ⟨none⟩

def convId : Converter := fun j => .ok j

/-- Counterexample for C8: when the conversion collaborator reports an
error that carries no partial output, the original input is NOT returned
— the fallback access itself throws inside `convert2V3_2`, and
`extractSchemas` answers `null`, although harvesting the original input
would have succeeded. -/
theorem normalize_fallback_cex_c8 :
    extractSchemas convBadNoOpt doc8 = none
    ∧ harvest doc8 = .ok []
    ∧ extractSchemas convBadNoOpt doc8 ≠ some ([], doc8)
    ∧ convert2V3_2 convBadNoOpt doc8 = .error () :=
  ⟨rfl, rfl, fun h => Option.noConfusion h, rfl⟩

/-- C8 (amended): a document already carrying a truthy current-version
marker is used unchanged; on a conversion error the `openapi` field of
the error's `options` is used as the document when it exists; in every
other error shape (no `options`, or `options` without `openapi`) the
whole extraction yields `null` — the original input is never used as a
fallback. -/
theorem normalize_fallback_c8 (conv : Converter) (doc : Json) :
    (truthyOpt (doc.get? "openapi") = true →
        extractSchemas conv doc =
          (match harvest doc with
           | .ok items => some (items, doc)
           | .error _ => none))
    ∧ (∀ e p, truthyOpt (doc.get? "openapi") = false → conv doc = .error e →
        e.options.bind (fun opts => opts.get? "openapi") = some p →
        extractSchemas conv doc =
          (match harvest p with
           | .ok items => some (items, p)
           | .error _ => none))
    ∧ (∀ e, truthyOpt (doc.get? "openapi") = false → conv doc = .error e →
        e.options.bind (fun opts => opts.get? "openapi") = none →
        extractSchemas conv doc = none) := by
  refine ⟨?_, ?_, ?_⟩
  · intro hm
    cases hh : harvest doc with
    | ok items => simp [extractSchemas, hm, hh]
    | error e2 => simp [extractSchemas, hm, hh]
  · intro e p hm hc hp
    rcases ho : e.options with _ | opts
    · rw [ho] at hp; simp at hp
    · rw [ho] at hp
      simp only [Option.some_bind] at hp
      cases hh : harvest p with
      | ok items => simp [extractSchemas, convert2V3_2, hm, hc, ho, hp, hh]
      | error e2 => simp [extractSchemas, convert2V3_2, hm, hc, ho, hp, hh]
  · intro e hm hc hp
    rcases ho : e.options with _ | opts
    · simp [extractSchemas, convert2V3_2, hm, hc, ho]
    · rw [ho] at hp
      simp only [Option.some_bind] at hp
      simp [extractSchemas, convert2V3_2, hm, hc, ho, hp]

/-- Witness for C8 (amended): a failing conversion carrying a partial
output falls back to that partial output, and harvesting proceeds on
it. -/
theorem normalize_fallback_c8_witness :
    extractSchemas convP doc8 = some ([], p8) :=
  (normalize_fallback_c8 convP doc8).2.1 ⟨some (Json.obj [("openapi", p8)])⟩ p8 rfl rfl rfl

/-- A current-version document with no `paths` mapping. -/
def doc9 : Json := Json.obj [("openapi", Json.str "3.0.0")]

/-- Counterexample for C9: a document without `paths` does not produce an
empty occurrence list — `Object.entries(undefined)` throws, the catch-all
fires, and `extractSchemas` answers `null`; the grouping engine is never
handed anything. -/
theorem missing_paths_cex_c9 :
    extractSchemas convId doc9 = none
    ∧ extractSchemas convId doc9 ≠ some ([], doc9) :=
  ⟨rfl, fun h => Option.noConfusion h⟩

/-- C9 (amended): for every current-version document lacking a `paths`
mapping, the entries call over `paths` throws, the error is caught
inside `extractSchemas`, and the whole extraction returns `null` (no
occurrence list at all) rather than an empty occurrence list. -/
theorem missing_paths_null_c9 (conv : Converter) (doc : Json)
    (hm : truthyOpt (doc.get? "openapi") = true) (hp : doc.get? "paths" = none) :
    extractSchemas conv doc = none := by
  simp [extractSchemas, hm, harvest, hp, jsEntries, except_bind_error]

/-- Witness for C9 (amended). -/
theorem missing_paths_null_c9_witness : extractSchemas convId doc9 = none :=
  missing_paths_null_c9 convId doc9 rfl rfl

/-- The fixture operation: a request body with fragment `"T"` and two
response status codes both carrying fragment `"S"`. -/
def md10 : Json := Json.obj
  [("requestBody", mkBody (Json.str "T")),
   ("responses", Json.obj [("200", mkBody sS), ("201", mkBody sS)])]

def doc10 : Json := Json.obj
  [("openapi", Json.str "3.0.0"),
   ("paths", Json.obj [("/p", Json.obj [("post", md10)])])]

def item10a : Item :=
  { code := "200", path := "/p", method := "post", res := some (mkBody sS),
    req := some (mkBody (Json.str "T")), parametersMethod := none, parametersPath := none }

def item10b : Item :=
  { code := "201", path := "/p", method := "post", res := some (mkBody sS),
    req := some (mkBody (Json.str "T")), parametersMethod := none, parametersPath := none }

def items10 : List Item := [item10a, item10b]

/-- C10: an operation with N response status codes attaches the same
`requestBody` reference to each of the N per-status-code occurrence
records, so the request pass sees that one request-body schema N times
(once per status code) and a matching group can accumulate the N distinct
(path, method, statusCode) triples (concrete run: the request group of
the fixture holds both triples from the single request body); an
operation with a request body but without a `responses` map contributes
no occurrence at all. -/
theorem request_fanout_c10 :
    (∀ (api : Json) (path method : String) (md : Json)
        (rsf : List (String × Json)) (rb : Json),
        md.get? "responses" = some (Json.obj rsf) → md.get? "requestBody" = some rb →
        itemsOfMethod api path method md = .ok (rsf.map (fun ce =>
          { code := ce.1, path := path, method := method, res := some ce.2,
            req := some rb, parametersMethod := md.get? "parameters",
            parametersPath := optGet ((api.get? "paths").bind (fun p => p.get? path))
              "parameters" })))
    ∧ (∀ (api : Json) (path method : String) (md : Json)
        (rsf : List (String × Json)) (rb : Json),
        md.get? "responses" = some (Json.obj rsf) → md.get? "requestBody" = some rb →
        ∃ items, itemsOfMethod api path method md = .ok items
          ∧ items.length = rsf.length ∧ ∀ it ∈ items, it.req = some rb)
    ∧ (∀ (api : Json) (p m : String) (md : Json),
        api.get? "paths" = some (Json.obj [(p, Json.obj [(m, md)])]) →
        truthyOpt (md.get? "responses") = false →
        harvest api = .ok [])
    ∧ (extractSchemas convId doc10 = some (items10, doc10)
       ∧ (groupBySchema (liftCmp strCmp) items10).map Group.message_type
          = [["res"], ["req"]]
       ∧ (groupBySchema (liftCmp strCmp) items10).map Group.endpoints
          = [[⟨"post", "/p", "200"⟩, ⟨"post", "/p", "201"⟩],
             [⟨"post", "/p", "200"⟩, ⟨"post", "/p", "201"⟩]]) := by
  have hfan : ∀ (api : Json) (path method : String) (md : Json)
      (rsf : List (String × Json)) (rb : Json),
      md.get? "responses" = some (Json.obj rsf) → md.get? "requestBody" = some rb →
      itemsOfMethod api path method md = .ok (rsf.map (fun ce =>
        { code := ce.1, path := path, method := method, res := some ce.2,
          req := some rb, parametersMethod := md.get? "parameters",
          parametersPath := optGet ((api.get? "paths").bind (fun p => p.get? path))
            "parameters" })) := by
    intro api path method md rsf rb h1 h2
    unfold itemsOfMethod
    rw [h1]
    simp only [jsEntries, h2, except_bind_ok]
    rfl
  refine ⟨hfan, ?_, ?_, rfl, rfl, rfl⟩
  · intro api path method md rsf rb h1 h2
    refine ⟨_, hfan api path method md rsf rb h1 h2, by simp, ?_⟩
    intro it hit
    obtain ⟨ce, -, rfl⟩ := List.mem_map.mp hit
    rfl
  · intro api p m md hp hr
    unfold harvest
    rw [hp]
    simp only [jsEntries, except_bind_ok, List.mapM_cons, List.mapM_nil,
      List.filter_cons, List.filter_nil, hr, except_map_ok, pure_bind]
    rfl

/-- Witness for C10: the fixture operation yields exactly its two
per-status-code occurrence records, both carrying the same request
body. -/
theorem request_fanout_c10_witness :
    itemsOfMethod doc10 "/p" "post" md10 = .ok items10 :=
  request_fanout_c10.1 doc10 "/p" "post" md10
    [("200", mkBody sS), ("201", mkBody sS)] (mkBody (Json.str "T")) rfl rfl

end Apistic
